import Mathlib

/-!
Verification of the network-log visualization pipeline
(`network_log_reader_v01.py` / `network_log_plotter_v02.py`).

Shallow embedding conventions:
* A node name is an IPv4 address; `ipaddress.IPv4Address` compares addresses
  by their 32-bit numeric value, so a node is embedded as that numeric value,
  a `Nat` (valid dotted-quad strings are in bijection with these values).
* A log row is the triple `(sender, receiver, fails)`; `int(z)` makes the
  fail count an `Int`.
* Python dictionaries whose iteration order matters (node positions, edge
  dictionaries) are embedded as association lists in insertion order;
  `d.get(k, 0)` becomes `lookupD`.
* Plot coordinates (Python floats) are embedded as rationals `ℚ`;
  `random.uniform(-a, a)` becomes an oracle `Nat → ℚ × ℚ` together with the
  hypothesis that each sample lies in `[-a, a]`.
* Hover-text f-strings are embedded as a `Caption` record holding exactly the
  values interpolated into the string.
-/

namespace NetworkLog

/-- A node name: the numeric value of its IPv4 address. -/
abbrev Node := Nat

/-- One line of the failure log: `(sender, receiver, fails)`,
as stored in `self.raw_data = tuple(zip(self.sender, self.receiver, self.fails))`. -/
abbrev Row := Node × Node × Int

/-! ### `read_log_file`: pivot-table aggregation -/

/-- Value of `self.sender_fails_dict.get(n, 0)`: the pivot table
`panda_df.pivot_table(values='fails', index='sender', aggfunc=np.sum)` keyed
at `n`, i.e. the sum of the `fails` column over the rows whose sender is `n`
(0 when `n` never appears as a sender). -/
def sender_fails_get (log : List Row) (n : Node) : Int :=
  ((log.filter (fun r => r.1 = n)).map (fun r => r.2.2)).sum

/-- Value of `self.receiver_fails_dict.get(n, 0)`: sum of `fails` over the
rows whose receiver is `n`. -/
def receiver_fails_get (log : List Row) (n : Node) : Int :=
  ((log.filter (fun r => r.2.1 = n)).map (fun r => r.2.2)).sum

/-- Value of `self.total_fails_dict.get(n, 0)` where
`total_fails_dict = add_dicts(sender_fails_dict, receiver_fails_dict)`:
a key missing from one dictionary contributes 0, so the lookup is the sum of
the two pivot lookups. -/
def total_fails_get (log : List Row) (n : Node) : Int :=
  sender_fails_get log n + receiver_fails_get log n

/-- The list of senders of the log, in row order (column `sender`). -/
def senders (log : List Row) : List Node := log.map (fun r => r.1)

/-- The list of receivers of the log, in row order (column `receiver`). -/
def receivers (log : List Row) : List Node := log.map (fun r => r.2.1)

/-- `self.unique_nodes`: the union of the distinct senders and the distinct
receivers, sorted by `ipaddress.IPv4Address`, i.e. by numeric address value. -/
def unique_nodes (log : List Row) : List Node :=
  List.insertionSort (· ≤ ·) ((senders log ++ receivers log).dedup)

/-! ### `create_network_graph`: MultiDiGraph summed into a DiGraph -/

/-- Adding one weighted entry to the directed graph, represented as an
edge association list `(src, dst, weight)`: if the node pairing is already
present its weight is increased, otherwise the edge is appended.  This embeds
the `MultiDiGraph` → `DiGraph` conversion of `create_network_graph`, which
keeps one edge per node pairing whose weight is the sum of the entries with
that pairing. -/
def addWEdge : List (Node × Node × Int) → Node × Node × Int → List (Node × Node × Int)
  | [], e => [e]
  | f :: g, e =>
    if f.1 = e.1 ∧ f.2.1 = e.2.1 then (f.1, f.2.1, f.2.2 + e.2.2) :: g
    else f :: addWEdge g e

/-- `create_network_graph(entries)`: the directed graph with one edge per
node pairing occurring in `entries`, weighted by the sum of the matching
entry weights. -/
def create_network_graph (entries : List Row) : List (Node × Node × Int) :=
  entries.foldl addWEdge []

/-- `send_fails = [(x, y, int(z)) for x, y, z in self.raw_data]` keeps the
row order, so `self.send_graph` is the graph of the raw rows. -/
def send_graph (log : List Row) : List (Node × Node × Int) :=
  create_network_graph log

/-- `receive_fails = [(y, x, int(z)) for x, y, z in self.raw_data]` swaps the
two node columns of every row. -/
def receive_entries (log : List Row) : List Row :=
  log.map (fun r => (r.2.1, r.1, r.2.2))

/-- `self.receive_graph = self.create_network_graph(receive_fails)`. -/
def receive_graph (log : List Row) : List (Node × Node × Int) :=
  create_network_graph (receive_entries log)

/-- Whether the directed graph has an edge `a -> b`. -/
def hasEdge (g : List (Node × Node × Int)) (a b : Node) : Prop :=
  ∃ e ∈ g, e.1 = a ∧ e.2.1 = b

instance (g : List (Node × Node × Int)) (a b : Node) : Decidable (hasEdge g a b) := by
  unfold hasEdge; infer_instance

/-- Total weight stored on edges `a -> b` of the graph (0 when absent;
a graph built by `create_network_graph` has at most one such edge). -/
def edgeWeight (g : List (Node × Node × Int)) (a b : Node) : Int :=
  ((g.filter (fun e => e.1 = a ∧ e.2.1 = b)).map (fun e => e.2.2)).sum

/-- Sum of the `fails` values of the log rows with sender `a` and receiver `b`. -/
def sumFails (entries : List Row) (a b : Node) : Int :=
  ((entries.filter (fun r => r.1 = a ∧ r.2.1 = b)).map (fun r => r.2.2)).sum

/-! ### `append_adjacency` / `create_composite_dict` -/

/-- The adjacency dictionary of node `a` in the graph, as stored by
`append_adjacency`: one `(node_b, weight)` binding per out-edge of `a`,
in the graph's edge order. -/
def adjOf (g : List (Node × Node × Int)) (a : Node) : List (Node × Int) :=
  (g.filter (fun e => e.1 = a)).map (fun e => (e.2.1, e.2.2))

/-- Dictionary lookup with default 0: `d.get(k, 0)`. -/
def lookupD (d : List (Node × Int)) (k : Node) : Int :=
  match d.find? (fun kv => kv.1 = k) with
  | some kv => kv.2
  | none => 0

/-- The keys of a dictionary, in insertion order. -/
def keysOf (d : List (Node × Int)) : List Node := d.map (fun kv => kv.1)

/-- One step of `add_dicts`: fold the binding `(k, v)` of `d2` into `d3`.
`if k in d3: d3[k] = d3[k] + v else: d3[k] = v` — an existing binding is
updated in place, a new key is appended. -/
def addBinding (d3 : List (Node × Int)) (kv : Node × Int) : List (Node × Int) :=
  if kv.1 ∈ keysOf d3 then
    d3.map (fun b => if b.1 = kv.1 then (b.1, b.2 + kv.2) else b)
  else d3 ++ [kv]

/-- `add_dicts(d1, d2)`: copy `d1` and fold every binding of `d2` into it,
summing the values on common keys. -/
def add_dicts (d1 d2 : List (Node × Int)) : List (Node × Int) :=
  d2.foldl addBinding d1

/-- `composite[n]['Send Edges']`, filled in by
`append_adjacency(composite, send, 'Send Edges')`. -/
def composite_SendEdges (log : List Row) (n : Node) : List (Node × Int) :=
  adjOf (send_graph log) n

/-- `composite[n]['Receive Edges']`. -/
def composite_ReceiveEdges (log : List Row) (n : Node) : List (Node × Int) :=
  adjOf (receive_graph log) n

/-- `composite[n]['Send Errors'] = self.sender_fails_dict.get(node, 0)`. -/
def composite_SendErrors (log : List Row) (n : Node) : Int :=
  sender_fails_get log n

/-- `composite[n]['Receive Errors'] = self.receiver_fails_dict.get(node, 0)`. -/
def composite_ReceiveErrors (log : List Row) (n : Node) : Int :=
  receiver_fails_get log n

/-- `composite[n]['Send+Receive Errors'] = send_error + receive_error`. -/
def composite_SRErrors (log : List Row) (n : Node) : Int :=
  composite_SendErrors log n + composite_ReceiveErrors log n

/-- `composite[n]['Send+Receive Edges'] = add_dicts(send edges, receive edges)`. -/
def composite_SREdges (log : List Row) (n : Node) : List (Node × Int) :=
  add_dicts (composite_SendEdges log n) (composite_ReceiveEdges log n)

/-! ### `layout_network` / `square_layout` -/

/-- A node position `[x, y]`, rationals standing for the Python floats. -/
abbrev Pos := ℚ × ℚ

/-- Lookup in a position dictionary (association list in insertion order). -/
def lookupPos (ps : List (Node × Pos)) (k : Node) : Option Pos :=
  (ps.find? (fun kv => kv.1 = k)).map (fun kv => kv.2)

/-- The `order_by_ip` block of `layout_network`: it walks the items of
`self.node_positions` in insertion order and assigns each value in turn to
the next key of the sorted key list —
`tmp[next(node)] = v` for `node = (i for i in sorted(keys, key=IPv4Address))`.
The resulting dictionary pairs the i-th smallest key with the i-th value of
the original iteration order. -/
def reorder_by_ip (ps : List (Node × Pos)) : List (Node × Pos) :=
  (List.insertionSort (· ≤ ·) (ps.map (fun kv => kv.1))).zip (ps.map (fun kv => kv.2))

/-- `ceil(node_count ** 0.5)`: the least `m` with `n ≤ m * m`. -/
def nodes_per_axis (n : Nat) : Nat :=
  if Nat.sqrt n * Nat.sqrt n = n then Nat.sqrt n else Nat.sqrt n + 1

/-- The i-th coordinate yielded by the nested generator `next_node` of
`square_layout`: the outer loop ranges over `y`, the inner over `x`, each
step `spacing = 1/nodes_per_axis` apart, plus
`random.uniform(-spacing, spacing) * noise` on each axis.  The random draws
are supplied by the oracle `rand`. -/
def grid_coord (m : Nat) (noise : ℚ) (rand : Nat → ℚ × ℚ) (i : Nat) : Pos :=
  (((i % m : Nat) : ℚ) * (1 / (m : ℚ)) + (rand i).1 * noise,
   ((i / m : Nat) : ℚ) * (1 / (m : ℚ)) + (rand i).2 * noise)

/-- `square_layout(net_graph, noise)`: sort the graph's nodes as IP
addresses and pair them, in order, with the coordinates yielded by the
generator (which yields `nodes_per_axis ^ 2` coordinates in total). -/
def square_layout (nodes : List Node) (noise : ℚ) (rand : Nat → ℚ × ℚ) :
    List (Node × Pos) :=
  (List.insertionSort (· ≤ ·) nodes).zip
    ((List.range (nodes_per_axis (List.insertionSort (· ≤ ·) nodes).length *
        nodes_per_axis (List.insertionSort (· ≤ ·) nodes).length)).map
      (grid_coord (nodes_per_axis (List.insertionSort (· ≤ ·) nodes).length)
        noise rand))

/-! ### `find_marker_text` / `find_edge_info` / `calc_plot_data` -/

/-- The three values of `edge_type`: 'Send', 'Receive', 'Send+Receive'
(`find_marker_text` raises on anything else). -/
inductive EdgeType
  | Send
  | Receive
  | SendReceive
deriving DecidableEq, Repr

/-- The edge dictionary `self.composite_dict[node_a][edge_type + " Edges"]`. -/
def composite_Edges (log : List Row) (et : EdgeType) (n : Node) : List (Node × Int) :=
  match et with
  | .Send => composite_SendEdges log n
  | .Receive => composite_ReceiveEdges log n
  | .SendReceive => composite_SREdges log n

/-- A hover caption, embedding the f-string of `find_marker_text` by the
values interpolated into it: the node, its total/send/receive fail counts,
and — only when the combined weight to the selected node is positive — the
appended pair annotation `(node_a, my_total, my_send, my_receive)`. -/
structure Caption where
  node : Node
  total : Int
  send : Int
  receive : Int
  pairInfo : Option (Node × Int × Int × Int)
deriving DecidableEq, Repr

/-- The caption of one `node` of the loop body of `find_marker_text`. -/
def marker_caption (log : List Row) (node_a : Node) (node : Node) : Caption :=
  let my_send := lookupD (composite_SendEdges log node) node_a
  let my_receive := lookupD (composite_ReceiveEdges log node) node_a
  let my_total := lookupD (composite_SREdges log node) node_a
  { node := node
    total := total_fails_get log node
    send := sender_fails_get log node
    receive := receiver_fails_get log node
    pairInfo := if my_total > 0 then some (node_a, my_total, my_send, my_receive) else none }

/-- The color of one `node` of the loop body of `find_marker_text`:
the fail count of the requested kind. -/
def marker_color (log : List Row) (et : EdgeType) (node : Node) : Int :=
  match et with
  | .Send => sender_fails_get log node
  | .Receive => receiver_fails_get log node
  | .SendReceive => total_fails_get log node

/-- `find_marker_text(node_a, edge_type)`: one caption and one color per
entry of `plot_data['Node Names']`, in order. -/
def find_marker_text (log : List Row) (node_a : Node) (et : EdgeType) :
    List Caption × List Int :=
  ((unique_nodes log).map (marker_caption log node_a),
   (unique_nodes log).map (marker_color log et))

/-- Maximum of a list of rationals (`np.max`; only applied to nonempty
lists in the code). -/
def listMax : List ℚ → ℚ
  | [] => 0
  | [x] => x
  | x :: y :: xs => max x (listMax (y :: xs))

/-- One row `[x0, x1, y0, y1, weight]` of `line_data` before normalization. -/
def line_entry (pos : Node → Pos) (a : Node) (bw : Node × Int) : ℚ × ℚ × ℚ × ℚ × ℚ :=
  ((pos a).1, (pos bw.1).1, (pos a).2, (pos bw.1).2, (bw.2 : ℚ))

/-- The weight column of a `line_data` row. -/
def lineWeight (l : ℚ × ℚ × ℚ × ℚ × ℚ) : ℚ := l.2.2.2.2

/-- `find_edge_info(node_a, edge_type)`, the `line_data` component: one row
per binding of the edge dictionary; when nonempty, the weight column is
divided by its maximum (`line_data[:, 4] = line_data[:, 4] / max_weight`);
an empty `line_data` is returned as the empty list, unnormalized. -/
def find_edge_info_line_data (log : List Row) (pos : Node → Pos)
    (a : Node) (et : EdgeType) : List (ℚ × ℚ × ℚ × ℚ × ℚ) :=
  let raw := (composite_Edges log et a).map (line_entry pos a)
  match raw with
  | [] => []
  | r :: rs =>
    let max_weight := listMax ((r :: rs).map lineWeight)
    (r :: rs).map (fun l => (l.1, l.2.1, l.2.2.1, l.2.2.2.1, lineWeight l / max_weight))

/-- `find_edge_info`, the `weights` component: the edge weights in
dictionary order. -/
def find_edge_info_weights (log : List Row) (a : Node) (et : EdgeType) : List Int :=
  (composite_Edges log et a).map (fun bw => bw.2)

/-- `find_edge_info`, the `edge_coordinates` component `[edge_x, edge_y]`:
per edge the pair of endpoint coordinates followed by `None`. -/
def find_edge_info_edge_coordinates (log : List Row) (pos : Node → Pos)
    (a : Node) (et : EdgeType) : List (Option ℚ) × List (Option ℚ) :=
  ((composite_Edges log et a).flatMap
     (fun bw => [some (pos a).1, some (pos bw.1).1, none]),
   (composite_Edges log et a).flatMap
     (fun bw => [some (pos a).2, some (pos bw.1).2, none]))

/-- A plotly line shape, by the values `lines_to_shapes` stores in it. -/
structure Shape where
  kind : String
  layer : String
  x0 : ℚ
  y0 : ℚ
  x1 : ℚ
  y1 : ℚ
  color : String
  width : ℚ
deriving DecidableEq, Repr

/-- `lines_to_shapes(lines, min_weight=0.4, max_weight=3.0)`: one shape per
`line_data` row, with width `min_weight + line[4] * max_weight`. -/
def lines_to_shapes (lines : List (ℚ × ℚ × ℚ × ℚ × ℚ))
    (min_weight max_weight : ℚ) : List Shape :=
  lines.map (fun line =>
    { kind := "line"
      layer := "below"
      x0 := line.1
      y0 := line.2.2.1
      x1 := line.2.1
      y1 := line.2.2.2.1
      color := "rgb(50, 171, 96)"
      width := min_weight + lineWeight line * max_weight })

/-- The six entries of `self.plot_data[n][edge_type]`. -/
structure EdgeTypeData where
  edge_coordinates : List (Option ℚ) × List (Option ℚ)
  line_data : List (ℚ × ℚ × ℚ × ℚ × ℚ)
  shape_data : List Shape
  weights : List Int
  node_text : List Caption
  node_color : List Int
deriving DecidableEq, Repr

/-- `self.plot_data`: the node-name tuple, the coordinate tuple pair, and
the per-node per-edge-type data. -/
structure PlotData where
  nodeNames : List Node
  nodeCoordinates : List ℚ × List ℚ
  perNode : Node → EdgeType → EdgeTypeData

/-- `calc_plot_data()`, computed from the composite dictionary and the node
positions: `'Node Names'` is the unique node tuple, `'Node Coordinates'`
collects the x then the y of each node in that same order, and every node
gets the six per-edge-type entries. -/
def calc_plot_data (log : List Row) (pos : Node → Pos) : PlotData :=
  { nodeNames := unique_nodes log
    nodeCoordinates :=
      ((unique_nodes log).map (fun n => (pos n).1),
       (unique_nodes log).map (fun n => (pos n).2))
    perNode := fun n et =>
      { edge_coordinates := find_edge_info_edge_coordinates log pos n et
        line_data := find_edge_info_line_data log pos n et
        shape_data := lines_to_shapes (find_edge_info_line_data log pos n et) (2/5) 3
        weights := find_edge_info_weights log n et
        node_text := (find_marker_text log n et).1
        node_color := (find_marker_text log n et).2 } }

/-! ### `NetworkLogPlotter.update_figure` -/

/-- The label of an edge type, as interpolated into figure titles. -/
def EdgeType.label : EdgeType → String
  | .Send => "Send"
  | .Receive => "Receive"
  | .SendReceive => "Send+Receive"

/-- The parts of the plotly figure that `update_figure` touches, plus the
scatter coordinates (`create_figure` fills them; `update_figure` reads only
`plot_data`). -/
structure Figure where
  scatterX : List ℚ
  scatterY : List ℚ
  scatterText : List Caption
  scatterColor : List Int
  colorbarTitle : String
  layoutTitle : String
  shapes : List Shape

/-- The reader state `nlr` as `update_figure` sees it: the log, the node
positions, and the precomputed attributes built from them. -/
structure ReaderState where
  log : List Row
  positions : Node → Pos
  composite_dict_SendEdges : Node → List (Node × Int)
  composite_dict_ReceiveEdges : Node → List (Node × Int)
  plot_data : PlotData

/-- The reader as built by `NetworkLogReader.__init__` after `calc_plot_data`. -/
def ReaderState.make (log : List Row) (pos : Node → Pos) : ReaderState :=
  { log := log
    positions := pos
    composite_dict_SendEdges := composite_SendEdges log
    composite_dict_ReceiveEdges := composite_ReceiveEdges log
    plot_data := calc_plot_data log pos }

/-- `NetworkLogPlotter.update_figure(fig, nlr, plot_node, edge_type)`:
reads `nlr.plot_data[plot_node][edge_type]` and installs its shape, text and
color entries in the figure, updating the two titles; the reader is returned
unchanged alongside the new figure (the Python body assigns only to `fig`). -/
def update_figure (fig : Figure) (nlr : ReaderState) (plot_node : Node)
    (edge_type : EdgeType) : Figure × ReaderState :=
  let d := nlr.plot_data.perNode plot_node edge_type
  ({ fig with
      scatterText := d.node_text
      scatterColor := d.node_color
      colorbarTitle := "Num of Failures<br>" ++ edge_type.label
      layoutTitle := "Interactive Graph of Network Failures<br>Selected Node: "
        ++ toString plot_node
      shapes := d.shape_data },
   nlr)

/-! ### Lemmas about `create_network_graph` -/

theorem edgeWeight_nil (a b : Node) : edgeWeight [] a b = 0 := rfl

theorem edgeWeight_cons (f : Node × Node × Int) (g : List (Node × Node × Int))
    (a b : Node) :
    edgeWeight (f :: g) a b =
      (if f.1 = a ∧ f.2.1 = b then f.2.2 else 0) + edgeWeight g a b := by
  simp only [edgeWeight, List.filter_cons]
  by_cases h : f.1 = a ∧ f.2.1 = b
  · simp [h]
  · simp [h]

theorem sumFails_eq_edgeWeight (es : List Row) (a b : Node) :
    sumFails es a b = edgeWeight es a b := rfl

theorem edgeWeight_addWEdge (g : List (Node × Node × Int)) (e : Node × Node × Int)
    (a b : Node) :
    edgeWeight (addWEdge g e) a b =
      edgeWeight g a b + (if e.1 = a ∧ e.2.1 = b then e.2.2 else 0) := by
  induction g with
  | nil =>
    simp only [addWEdge, edgeWeight_cons, edgeWeight_nil]
    omega
  | cons f g ih =>
    by_cases h : f.1 = e.1 ∧ f.2.1 = e.2.1
    · simp only [addWEdge, if_pos h, edgeWeight_cons]
      by_cases hab : f.1 = a ∧ f.2.1 = b
      · have he : e.1 = a ∧ e.2.1 = b := ⟨h.1 ▸ hab.1, h.2 ▸ hab.2⟩
        simp only [hab, he, and_self, if_true, if_pos]
        omega
      · have he : ¬(e.1 = a ∧ e.2.1 = b) := by
          intro hc
          exact hab ⟨h.1.trans hc.1, h.2.trans hc.2⟩
        simp only [hab, he, if_neg, if_false]
        omega
    · simp only [addWEdge, if_neg h, edgeWeight_cons, ih]
      omega

theorem hasEdge_nil (a b : Node) : ¬ hasEdge [] a b := by
  simp [hasEdge]

theorem hasEdge_cons (f : Node × Node × Int) (g : List (Node × Node × Int))
    (a b : Node) :
    hasEdge (f :: g) a b ↔ (f.1 = a ∧ f.2.1 = b) ∨ hasEdge g a b := by
  simp [hasEdge, List.mem_cons]

theorem hasEdge_addWEdge (g : List (Node × Node × Int)) (e : Node × Node × Int)
    (a b : Node) :
    hasEdge (addWEdge g e) a b ↔ hasEdge g a b ∨ (e.1 = a ∧ e.2.1 = b) := by
  induction g with
  | nil =>
    simp only [addWEdge, hasEdge_cons]
    have := hasEdge_nil a b
    tauto
  | cons f g ih =>
    by_cases h : f.1 = e.1 ∧ f.2.1 = e.2.1
    · simp only [addWEdge, if_pos h, hasEdge_cons]
      constructor
      · rintro (hab | hg)
        · exact Or.inl (Or.inl ⟨h.1 ▸ hab.1, h.2 ▸ hab.2⟩)
        · exact Or.inl (Or.inr hg)
      · rintro ((hab | hg) | he)
        · exact Or.inl hab
        · exact Or.inr hg
        · exact Or.inl ⟨h.1.trans he.1, h.2.trans he.2⟩
    · simp only [addWEdge, if_neg h, hasEdge_cons, ih]
      tauto

theorem edgeWeight_foldl (es : List Row) (g : List (Node × Node × Int))
    (a b : Node) :
    edgeWeight (es.foldl addWEdge g) a b = edgeWeight g a b + sumFails es a b := by
  induction es generalizing g with
  | nil => simp [sumFails]
  | cons r es ih =>
    rw [List.foldl_cons, ih, edgeWeight_addWEdge,
      sumFails_eq_edgeWeight (r :: es) a b, edgeWeight_cons,
      sumFails_eq_edgeWeight es a b]
    omega

theorem hasEdge_foldl (es : List Row) (g : List (Node × Node × Int))
    (a b : Node) :
    hasEdge (es.foldl addWEdge g) a b ↔
      hasEdge g a b ∨ ∃ r ∈ es, r.1 = a ∧ r.2.1 = b := by
  induction es generalizing g with
  | nil => simp
  | cons r es ih =>
    rw [List.foldl_cons, ih, hasEdge_addWEdge]
    simp only [List.mem_cons]
    constructor
    · rintro ((hg | hr) | ⟨s, hs, h⟩)
      · exact Or.inl hg
      · exact Or.inr ⟨r, Or.inl rfl, hr⟩
      · exact Or.inr ⟨s, Or.inr hs, h⟩
    · rintro (hg | ⟨s, rfl | hs, h⟩)
      · exact Or.inl (Or.inl hg)
      · exact Or.inl (Or.inr h)
      · exact Or.inr ⟨s, hs, h⟩

theorem edgeWeight_create (es : List Row) (a b : Node) :
    edgeWeight (create_network_graph es) a b = sumFails es a b := by
  rw [create_network_graph, edgeWeight_foldl, edgeWeight_nil, zero_add]

theorem hasEdge_create (es : List Row) (a b : Node) :
    hasEdge (create_network_graph es) a b ↔ ∃ r ∈ es, r.1 = a ∧ r.2.1 = b := by
  rw [create_network_graph, hasEdge_foldl]
  have := hasEdge_nil a b
  tauto

theorem sumFails_receive_entries (log : List Row) (a b : Node) :
    sumFails (receive_entries log) b a = sumFails log a b := by
  induction log with
  | nil => rfl
  | cons r l ih =>
    have h1 : receive_entries (r :: l) = (r.2.1, r.1, r.2.2) :: receive_entries l := rfl
    have ih' : edgeWeight (receive_entries l) b a = edgeWeight l a b := ih
    show edgeWeight (receive_entries (r :: l)) b a = edgeWeight (r :: l) a b
    rw [h1, edgeWeight_cons, edgeWeight_cons, ih']
    by_cases h : r.1 = a ∧ r.2.1 = b
    · rw [if_pos ⟨h.2, h.1⟩, if_pos h]
    · rw [if_neg (fun hc => h ⟨hc.2, hc.1⟩), if_neg h]

theorem exists_receive_entries (log : List Row) (a b : Node) :
    (∃ r ∈ receive_entries log, r.1 = b ∧ r.2.1 = a) ↔
      ∃ r ∈ log, r.1 = a ∧ r.2.1 = b := by
  constructor
  · rintro ⟨r, hr, h1, h2⟩
    simp only [receive_entries, List.mem_map] at hr
    obtain ⟨s, hs, rfl⟩ := hr
    exact ⟨s, hs, h2, h1⟩
  · rintro ⟨r, hr, h1, h2⟩
    exact ⟨(r.2.1, r.1, r.2.2), List.mem_map_of_mem _ hr, h2, h1⟩

/-- C1: the send graph has a directed edge `a -> b` iff some log row has
sender `a` and receiver `b`, and its weight is the sum of the `fails` values
of those rows; the receive graph is the edge-reversal of the send graph with
the same summed weights. -/
theorem graph_construction_spec (log : List Row) (a b : Node) :
    (hasEdge (send_graph log) a b ↔ ∃ r ∈ log, r.1 = a ∧ r.2.1 = b) ∧
    edgeWeight (send_graph log) a b = sumFails log a b ∧
    (hasEdge (receive_graph log) b a ↔ hasEdge (send_graph log) a b) ∧
    edgeWeight (receive_graph log) b a = edgeWeight (send_graph log) a b := by
  refine ⟨hasEdge_create log a b, edgeWeight_create log a b, ?_, ?_⟩
  · rw [receive_graph, hasEdge_create, send_graph, hasEdge_create]
    exact exists_receive_entries log a b
  · rw [receive_graph, edgeWeight_create, send_graph, edgeWeight_create]
    exact sumFails_receive_entries log a b

/-! ### Lemmas about `unique_nodes` -/

/-- C4: after `read_log_file`, `unique_nodes` is the union of the senders
and the receivers of the log, without duplicates, in strictly ascending
numeric IPv4 address order. -/
theorem unique_nodes_spec (log : List Row) :
    List.Sorted (· < ·) (unique_nodes log) ∧
    (unique_nodes log).Nodup ∧
    ∀ n : Node, n ∈ unique_nodes log ↔ n ∈ senders log ∨ n ∈ receivers log := by
  have hperm : List.Perm
      (List.insertionSort (· ≤ ·) ((senders log ++ receivers log).dedup))
      ((senders log ++ receivers log).dedup) :=
    List.perm_insertionSort _ _
  have hnodup : (unique_nodes log).Nodup := by
    rw [unique_nodes]
    exact hperm.nodup_iff.mpr (List.nodup_dedup _)
  have hsorted : List.Sorted (· ≤ ·) (unique_nodes log) :=
    List.sorted_insertionSort _ _
  refine ⟨hsorted.lt_of_le hnodup, hnodup, fun n => ?_⟩
  rw [unique_nodes, List.mem_insertionSort, List.mem_dedup, List.mem_append]

/-! ### Lemmas for the totals-versus-adjacency invariant -/

/-- Sum of the values stored in an edge dictionary. -/
def sumValues (d : List (Node × Int)) : Int := (d.map (fun kv => kv.2)).sum

/-- Total out-weight of node `n` in a graph. -/
def outWeight (g : List (Node × Node × Int)) (n : Node) : Int :=
  ((g.filter (fun e => e.1 = n)).map (fun e => e.2.2)).sum

theorem sumValues_adjOf (g : List (Node × Node × Int)) (n : Node) :
    sumValues (adjOf g n) = outWeight g n := by
  simp [sumValues, adjOf, outWeight, List.map_map, Function.comp_def]

theorem outWeight_cons (f : Node × Node × Int) (g : List (Node × Node × Int))
    (n : Node) :
    outWeight (f :: g) n = (if f.1 = n then f.2.2 else 0) + outWeight g n := by
  simp only [outWeight, List.filter_cons]
  by_cases h : f.1 = n
  · simp [h]
  · simp [h]

theorem outWeight_addWEdge (g : List (Node × Node × Int)) (e : Node × Node × Int)
    (n : Node) :
    outWeight (addWEdge g e) n = outWeight g n + (if e.1 = n then e.2.2 else 0) := by
  induction g with
  | nil =>
    show outWeight [e] n = outWeight [] n + _
    rw [outWeight_cons]
    simp [outWeight]
  | cons f g ih =>
    by_cases h : f.1 = e.1 ∧ f.2.1 = e.2.1
    · simp only [addWEdge, if_pos h, outWeight_cons]
      by_cases hn : f.1 = n
      · have he : e.1 = n := h.1 ▸ hn
        simp only [hn, he, if_true, if_pos]
        omega
      · have he : ¬ e.1 = n := fun hc => hn (h.1.trans hc)
        simp only [hn, he, if_false, if_neg]
        omega
    · simp only [addWEdge, if_neg h, outWeight_cons, ih]
      omega

theorem outWeight_foldl (es : List Row) (g : List (Node × Node × Int))
    (n : Node) :
    outWeight (es.foldl addWEdge g) n = outWeight g n + sender_fails_get es n := by
  induction es generalizing g with
  | nil => simp [sender_fails_get]
  | cons r es ih =>
    have hs : sender_fails_get (r :: es) n =
        (if r.1 = n then r.2.2 else 0) + sender_fails_get es n :=
      outWeight_cons r es n
    rw [List.foldl_cons, ih, outWeight_addWEdge, hs]
    omega

theorem outWeight_create (es : List Row) (n : Node) :
    outWeight (create_network_graph es) n = sender_fails_get es n := by
  have h0 : outWeight [] n = 0 := rfl
  rw [create_network_graph, outWeight_foldl, h0, zero_add]

theorem sender_fails_receive_entries (log : List Row) (n : Node) :
    sender_fails_get (receive_entries log) n = receiver_fails_get log n := by
  induction log with
  | nil => rfl
  | cons r l ih =>
    have h1 : receive_entries (r :: l) = (r.2.1, r.1, r.2.2) :: receive_entries l := rfl
    have h2 : sender_fails_get ((r.2.1, r.1, r.2.2) :: receive_entries l) n =
        (if r.2.1 = n then r.2.2 else 0) + sender_fails_get (receive_entries l) n :=
      outWeight_cons _ _ n
    have h3 : receiver_fails_get (r :: l) n =
        (if r.2.1 = n then r.2.2 else 0) + receiver_fails_get l n := by
      simp only [receiver_fails_get, List.filter_cons]
      by_cases h : r.2.1 = n
      · simp [h]
      · simp [h]
    rw [h1, h2, ih, h3]

/-- C10: for every node, the per-node totals from the pivot aggregation
agree with the adjacency structure from the graph aggregation: the
`Send Errors` count is the sum of the `Send Edges` weights and the
`Receive Errors` count is the sum of the `Receive Edges` weights. -/
theorem composite_totals_match_edges (log : List Row) (n : Node) :
    sumValues (composite_SendEdges log n) = composite_SendErrors log n ∧
    sumValues (composite_ReceiveEdges log n) = composite_ReceiveErrors log n := by
  constructor
  · rw [composite_SendEdges, sumValues_adjOf, send_graph, outWeight_create,
      composite_SendErrors]
  · rw [composite_ReceiveEdges, sumValues_adjOf, receive_graph, outWeight_create,
      sender_fails_receive_entries, composite_ReceiveErrors]

/-! ### Lemmas about `add_dicts` and the composite dictionary -/

theorem lookupD_nil (k : Node) : lookupD [] k = 0 := rfl

theorem lookupD_cons (b : Node × Int) (d : List (Node × Int)) (k : Node) :
    lookupD (b :: d) k = if b.1 = k then b.2 else lookupD d k := by
  simp only [lookupD, List.find?_cons]
  by_cases h : b.1 = k
  · simp [h]
  · simp [h]

theorem lookupD_eq_zero_of_not_mem (d : List (Node × Int)) (k : Node)
    (h : k ∉ keysOf d) : lookupD d k = 0 := by
  induction d with
  | nil => rfl
  | cons b d ih =>
    rw [lookupD_cons]
    simp only [keysOf, List.map_cons, List.mem_cons] at h
    push_neg at h
    rw [if_neg (fun hc => h.1 hc.symm)]
    exact ih (by simpa [keysOf] using h.2)

theorem lookupD_append_single (d : List (Node × Int)) (kv : Node × Int) (k : Node)
    (hnotin : kv.1 ∉ keysOf d) :
    lookupD (d ++ [kv]) k = lookupD d k + if k = kv.1 then kv.2 else 0 := by
  induction d with
  | nil =>
    rw [List.nil_append, lookupD_cons, lookupD_nil, zero_add]
    by_cases h : k = kv.1
    · rw [if_pos h.symm, if_pos h]
    · rw [if_neg (fun hc => h hc.symm), if_neg h]
  | cons b d ih =>
    have hb : kv.1 ≠ b.1 ∧ kv.1 ∉ keysOf d := by
      simp only [keysOf, List.map_cons, List.mem_cons] at hnotin
      push_neg at hnotin
      exact ⟨hnotin.1, by simpa [keysOf] using hnotin.2⟩
    rw [List.cons_append, lookupD_cons, lookupD_cons, ih hb.2]
    by_cases h : b.1 = k
    · have hkkv : ¬ k = kv.1 := fun hc => hb.1 ((hc ▸ h).symm)
      rw [if_pos h, if_pos h, if_neg hkkv, add_zero]
    · rw [if_neg h, if_neg h]

theorem lookupD_update (d : List (Node × Int)) (k0 : Node) (v : Int) (k : Node) :
    lookupD (d.map (fun b => if b.1 = k0 then (b.1, b.2 + v) else b)) k =
      lookupD d k + if k = k0 ∧ k ∈ keysOf d then v else 0 := by
  induction d with
  | nil => simp [lookupD_nil, keysOf]
  | cons b d ih =>
    rw [List.map_cons, lookupD_cons, lookupD_cons, ih]
    have hmemd : ¬ b.1 = k →
        ((k = k0 ∧ k ∈ keysOf (b :: d)) ↔ (k = k0 ∧ k ∈ keysOf d)) := by
      intro hbk
      simp only [keysOf, List.map_cons, List.mem_cons]
      constructor
      · rintro ⟨h1, h2 | h3⟩
        · exact absurd h2.symm hbk
        · exact ⟨h1, h3⟩
      · rintro ⟨h1, h2⟩
        exact ⟨h1, Or.inr h2⟩
    by_cases hb0 : b.1 = k0
    · rw [if_pos hb0]
      dsimp only
      by_cases hbk : b.1 = k
      · have hk0 : k = k0 := hbk.symm.trans hb0
        have hmem : k ∈ keysOf (b :: d) := by
          simp [keysOf, hbk.symm]
        rw [if_pos hbk, if_pos hbk, if_pos ⟨hk0, hmem⟩]
      · rw [if_neg hbk, if_neg hbk]
        by_cases hc : k = k0 ∧ k ∈ keysOf d
        · rw [if_pos hc, if_pos ((hmemd hbk).mpr hc)]
        · rw [if_neg hc, if_neg (fun hx => hc ((hmemd hbk).mp hx))]
    · rw [if_neg hb0]
      by_cases hbk : b.1 = k
      · have hnk0 : ¬(k = k0 ∧ k ∈ keysOf (b :: d)) := by
          rintro ⟨rfl, -⟩
          exact hb0 hbk
        rw [if_pos hbk, if_pos hbk, if_neg hnk0, add_zero]
      · rw [if_neg hbk, if_neg hbk]
        by_cases hc : k = k0 ∧ k ∈ keysOf d
        · rw [if_pos hc, if_pos ((hmemd hbk).mpr hc)]
        · rw [if_neg hc, if_neg (fun hx => hc ((hmemd hbk).mp hx))]

theorem lookupD_addBinding (d : List (Node × Int)) (kv : Node × Int) (k : Node) :
    lookupD (addBinding d kv) k = lookupD d k + if k = kv.1 then kv.2 else 0 := by
  rw [addBinding]
  by_cases h : kv.1 ∈ keysOf d
  · rw [if_pos h, lookupD_update]
    by_cases hk : k = kv.1
    · rw [if_pos ⟨hk, hk ▸ h⟩, if_pos hk]
    · rw [if_neg (fun hc => hk hc.1), if_neg hk]
  · rw [if_neg h, lookupD_append_single d kv k h]

theorem mem_keysOf_addBinding (d : List (Node × Int)) (kv : Node × Int) (k : Node) :
    k ∈ keysOf (addBinding d kv) ↔ k ∈ keysOf d ∨ k = kv.1 := by
  rw [addBinding]
  by_cases h : kv.1 ∈ keysOf d
  · rw [if_pos h]
    have hkeys : keysOf (d.map (fun b => if b.1 = kv.1 then (b.1, b.2 + kv.2) else b)) =
        keysOf d := by
      simp only [keysOf, List.map_map]
      refine List.map_congr_left (fun b _ => ?_)
      by_cases hb : b.1 = kv.1 <;> simp [hb]
    rw [hkeys]
    constructor
    · exact Or.inl
    · rintro (hk | rfl)
      · exact hk
      · exact h
  · rw [if_neg h]
    simp [keysOf]

theorem lookupD_add_dicts (d1 d2 : List (Node × Int))
    (h : (keysOf d2).Nodup) (k : Node) :
    lookupD (add_dicts d1 d2) k = lookupD d1 k + lookupD d2 k := by
  induction d2 generalizing d1 with
  | nil => simp [add_dicts, lookupD_nil]
  | cons kv d2 ih =>
    simp only [keysOf, List.map_cons, List.nodup_cons] at h
    rw [add_dicts, List.foldl_cons]
    have := ih (addBinding d1 kv) (by simpa [keysOf] using h.2)
    rw [add_dicts] at this
    rw [this, lookupD_addBinding, lookupD_cons]
    by_cases hk : kv.1 = k
    · rw [if_pos hk, if_pos hk.symm,
        lookupD_eq_zero_of_not_mem d2 k (by simpa [keysOf, hk] using h.1)]
      omega
    · rw [if_neg hk, if_neg (fun hc => hk hc.symm)]
      omega

theorem mem_keysOf_add_dicts (d1 d2 : List (Node × Int)) (k : Node) :
    k ∈ keysOf (add_dicts d1 d2) ↔ k ∈ keysOf d1 ∨ k ∈ keysOf d2 := by
  induction d2 generalizing d1 with
  | nil => simp [add_dicts, keysOf]
  | cons kv d2 ih =>
    rw [add_dicts, List.foldl_cons]
    have := ih (addBinding d1 kv)
    rw [add_dicts] at this
    rw [this, mem_keysOf_addBinding]
    simp only [keysOf, List.map_cons, List.mem_cons]
    tauto

/-! ### The node pairings of a built graph are distinct -/

/-- The node pairings of the edges of a graph, in edge order. -/
def pairingsOf (g : List (Node × Node × Int)) : List (Node × Node) :=
  g.map (fun e => (e.1, e.2.1))

theorem mem_pairingsOf_addWEdge (g : List (Node × Node × Int))
    (e : Node × Node × Int) (p : Node × Node) :
    p ∈ pairingsOf (addWEdge g e) ↔ p ∈ pairingsOf g ∨ p = (e.1, e.2.1) := by
  induction g with
  | nil => simp [addWEdge, pairingsOf]
  | cons f g ih =>
    by_cases h : f.1 = e.1 ∧ f.2.1 = e.2.1
    · simp only [addWEdge, if_pos h, pairingsOf, List.map_cons, List.mem_cons]
      constructor
      · rintro (rfl | hp)
        · exact Or.inl (Or.inl rfl)
        · exact Or.inl (Or.inr hp)
      · rintro ((rfl | hp) | rfl)
        · exact Or.inl rfl
        · exact Or.inr hp
        · exact Or.inl (by rw [h.1, h.2])
    · simp only [addWEdge, if_neg h, pairingsOf, List.map_cons, List.mem_cons] at *
      tauto

theorem nodup_pairingsOf_addWEdge (g : List (Node × Node × Int))
    (e : Node × Node × Int) (h : (pairingsOf g).Nodup) :
    (pairingsOf (addWEdge g e)).Nodup := by
  induction g with
  | nil => simp [addWEdge, pairingsOf]
  | cons f g ih =>
    by_cases hm : f.1 = e.1 ∧ f.2.1 = e.2.1
    · simpa only [addWEdge, if_pos hm, pairingsOf, List.map_cons] using h
    · simp only [pairingsOf, List.map_cons, List.nodup_cons] at h
      simp only [addWEdge, if_neg hm, pairingsOf, List.map_cons, List.nodup_cons]
      refine ⟨?_, ih h.2⟩
      intro hc
      rcases (mem_pairingsOf_addWEdge g e _).mp hc with hg | hp
      · exact h.1 hg
      · rw [Prod.mk.injEq] at hp
        exact hm ⟨hp.1, hp.2⟩

theorem nodup_pairingsOf_foldl (es : List Row) (g : List (Node × Node × Int))
    (h : (pairingsOf g).Nodup) : (pairingsOf (es.foldl addWEdge g)).Nodup := by
  induction es generalizing g with
  | nil => exact h
  | cons r es ih =>
    rw [List.foldl_cons]
    exact ih _ (nodup_pairingsOf_addWEdge g r h)

theorem nodup_pairingsOf_create (es : List Row) :
    (pairingsOf (create_network_graph es)).Nodup :=
  nodup_pairingsOf_foldl es [] (by simp [pairingsOf])

theorem nodup_keysOf_adjOf (g : List (Node × Node × Int)) (n : Node)
    (h : (pairingsOf g).Nodup) : (keysOf (adjOf g n)).Nodup := by
  have hsub : (pairingsOf (g.filter (fun e => e.1 = n))).Sublist (pairingsOf g) :=
    (List.filter_sublist g).map _
  have hnd : (pairingsOf (g.filter (fun e => e.1 = n))).Nodup := h.sublist hsub
  have heq : pairingsOf (g.filter (fun e => e.1 = n)) =
      (keysOf (adjOf g n)).map (fun b => (n, b)) := by
    simp only [pairingsOf, keysOf, adjOf, List.map_map]
    refine List.map_congr_left (fun e he => ?_)
    have : e.1 = n := by
      have := List.of_mem_filter he
      simpa using this
    simp [this]
  rw [heq] at hnd
  exact hnd.of_map _

/-- C2: for every node, the composite dictionary's `Send+Receive Errors`
entry is the sum of its `Send Errors` and `Receive Errors` entries, and its
`Send+Receive Edges` dictionary is the key-wise sum of the `Send Edges` and
`Receive Edges` dictionaries: its key set is the union of the two key sets
and each value is the sum of the values present, a missing key counting
as 0. -/
theorem composite_sum_spec (log : List Row) (n : Node) :
    composite_SRErrors log n =
      composite_SendErrors log n + composite_ReceiveErrors log n ∧
    (∀ k : Node, k ∈ keysOf (composite_SREdges log n) ↔
      k ∈ keysOf (composite_SendEdges log n) ∨
      k ∈ keysOf (composite_ReceiveEdges log n)) ∧
    ∀ k : Node, lookupD (composite_SREdges log n) k =
      lookupD (composite_SendEdges log n) k +
      lookupD (composite_ReceiveEdges log n) k := by
  refine ⟨rfl, fun k => mem_keysOf_add_dicts _ _ k, fun k => ?_⟩
  exact lookupD_add_dicts _ _
    (nodup_keysOf_adjOf _ n (nodup_pairingsOf_create _)) k

/-! ### Lemmas about the layout routines -/

/-- C3 (code defect): on a position dictionary whose iteration order is not
already sorted by address — here node 2 was inserted before node 1 — the
`order_by_ip` block of `layout_network` pairs the i-th sorted key with the
i-th value of the original iteration order, so node 1 ends up with node 2's
coordinate: the re-sort corrupts the node coordinates instead of leaving
them unchanged. -/
theorem reorder_by_ip_corrupts :
    reorder_by_ip [(2, ((1 : ℚ), (1 : ℚ))), (1, ((0 : ℚ), (0 : ℚ)))] =
      [(1, ((1 : ℚ), (1 : ℚ))), (2, ((0 : ℚ), (0 : ℚ)))] ∧
    lookupPos (reorder_by_ip [(2, ((1 : ℚ), (1 : ℚ))), (1, ((0 : ℚ), (0 : ℚ)))]) 1 ≠
      lookupPos [(2, ((1 : ℚ), (1 : ℚ))), (1, ((0 : ℚ), (0 : ℚ)))] 1 := by
  constructor
  · rfl
  · decide

theorem zip_getElem?_of_lt {α β : Type} (l₁ : List α) (l₂ : List β) (i : Nat)
    (h₁ : i < l₁.length) (h₂ : i < l₂.length) :
    (l₁.zip l₂)[i]? = some (l₁[i], l₂[i]) := by
  have hz : i < (l₁.zip l₂).length := by
    rw [List.length_zip]
    omega
  rw [List.getElem?_eq_getElem hz]
  exact congrArg some List.getElem_zip

theorem nodes_per_axis_capacity (n : Nat) :
    n ≤ nodes_per_axis n * nodes_per_axis n := by
  rw [nodes_per_axis]
  by_cases h : Nat.sqrt n * Nat.sqrt n = n
  · rw [if_pos h]
    omega
  · rw [if_neg h]
    have hlt : n < (Nat.sqrt n + 1) * (Nat.sqrt n + 1) := by
      simpa [Nat.succ_eq_add_one] using Nat.lt_succ_sqrt n
    omega

/-- C5: `square_layout` lays out exactly the graph's nodes, every node
getting a coordinate (the grid capacity `m^2` with `m = ceil(sqrt n)` is at
least `n`); the keys are the nodes in ascending IPv4 order, and the node at
sorted position `i` receives `[(i mod m)*s + dx, (i div m)*s + dy]` with
`s = 1/m` and jitter bounded by `noise * s` on each axis. -/
theorem square_layout_spec (nodes : List Node) (noise : ℚ) (rand : Nat → ℚ × ℚ)
    (_hn : 1 ≤ nodes.length) (hnoise : 0 ≤ noise)
    (hrand : ∀ i : Nat,
      |(rand i).1| ≤ 1 / (nodes_per_axis nodes.length : ℚ) ∧
      |(rand i).2| ≤ 1 / (nodes_per_axis nodes.length : ℚ)) :
    nodes.length ≤ nodes_per_axis nodes.length * nodes_per_axis nodes.length ∧
    (square_layout nodes noise rand).map (fun kv => kv.1) =
      List.insertionSort (· ≤ ·) nodes ∧
    (∀ k : Node,
      k ∈ (square_layout nodes noise rand).map (fun kv => kv.1) ↔ k ∈ nodes) ∧
    ∀ i : Nat, i < nodes.length →
      ∃ nd : Node, ∃ dx dy : ℚ,
        (List.insertionSort (· ≤ ·) nodes)[i]? = some nd ∧
        |dx| ≤ noise * (1 / (nodes_per_axis nodes.length : ℚ)) ∧
        |dy| ≤ noise * (1 / (nodes_per_axis nodes.length : ℚ)) ∧
        (square_layout nodes noise rand)[i]? =
          some (nd,
            (((i % nodes_per_axis nodes.length : ℕ) : ℚ) *
                (1 / (nodes_per_axis nodes.length : ℚ)) + dx,
             ((i / nodes_per_axis nodes.length : ℕ) : ℚ) *
                (1 / (nodes_per_axis nodes.length : ℚ)) + dy)) := by
  have hcap : nodes.length ≤ nodes_per_axis nodes.length * nodes_per_axis nodes.length :=
    nodes_per_axis_capacity nodes.length
  have hsortlen : (List.insertionSort (· ≤ ·) nodes).length = nodes.length :=
    (List.perm_insertionSort (· ≤ ·) nodes).length_eq
  have hcoordlen :
      ((List.range (nodes_per_axis (List.insertionSort (· ≤ ·) nodes).length *
          nodes_per_axis (List.insertionSort (· ≤ ·) nodes).length)).map
        (grid_coord (nodes_per_axis (List.insertionSort (· ≤ ·) nodes).length)
          noise rand)).length =
      nodes_per_axis nodes.length * nodes_per_axis nodes.length := by
    rw [List.length_map, List.length_range, hsortlen]
  have hle : (List.insertionSort (· ≤ ·) nodes).length ≤
      ((List.range (nodes_per_axis (List.insertionSort (· ≤ ·) nodes).length *
          nodes_per_axis (List.insertionSort (· ≤ ·) nodes).length)).map
        (grid_coord (nodes_per_axis (List.insertionSort (· ≤ ·) nodes).length)
          noise rand)).length := by
    rw [hcoordlen, hsortlen]
    exact hcap
  have hmapfst : (square_layout nodes noise rand).map (fun kv => kv.1) =
      List.insertionSort (· ≤ ·) nodes := by
    rw [square_layout]
    exact List.map_fst_zip _ _ hle
  refine ⟨hcap, hmapfst, fun k => ?_, fun i hi => ?_⟩
  · rw [hmapfst, List.mem_insertionSort]
  · have hi₁ : i < (List.insertionSort (· ≤ ·) nodes).length := by
      rw [hsortlen]; exact hi
    have hi₂ : i <
        ((List.range (nodes_per_axis (List.insertionSort (· ≤ ·) nodes).length *
            nodes_per_axis (List.insertionSort (· ≤ ·) nodes).length)).map
          (grid_coord (nodes_per_axis (List.insertionSort (· ≤ ·) nodes).length)
            noise rand)).length := by
      rw [hcoordlen]
      omega
    have hizip : i < (square_layout nodes noise rand).length := by
      rw [square_layout, List.length_zip]
      omega
    refine ⟨(List.insertionSort (· ≤ ·) nodes)[i],
      (rand i).1 * noise, (rand i).2 * noise,
      List.getElem?_eq_getElem hi₁, ?_, ?_, ?_⟩
    · rw [abs_mul, abs_of_nonneg hnoise, mul_comm]
      exact mul_le_mul_of_nonneg_left (hrand i).1 hnoise
    · rw [abs_mul, abs_of_nonneg hnoise, mul_comm]
      exact mul_le_mul_of_nonneg_left (hrand i).2 hnoise
    · have hz2 : (square_layout nodes noise rand)[i]? =
          some ((List.insertionSort (· ≤ ·) nodes)[i],
            ((List.range (nodes_per_axis (List.insertionSort (· ≤ ·) nodes).length *
                nodes_per_axis (List.insertionSort (· ≤ ·) nodes).length)).map
              (grid_coord (nodes_per_axis (List.insertionSort (· ≤ ·) nodes).length)
                noise rand))[i]) := by
        rw [square_layout]
        exact zip_getElem?_of_lt _ _ i hi₁ hi₂
      rw [hz2, List.getElem_map, List.getElem_range, hsortlen, grid_coord]

/-- Witness for `square_layout_spec`: the two-node graph with nodes 5 and 3
and a zero noise oracle satisfies the hypotheses, so the layout conclusion
holds there. -/
theorem square_layout_spec_witness :
    ([5, 3] : List Node).length ≤
      nodes_per_axis ([5, 3] : List Node).length *
      nodes_per_axis ([5, 3] : List Node).length ∧
    (square_layout [5, 3] 0 (fun _ => ((0 : ℚ), (0 : ℚ)))).map (fun kv => kv.1) =
      List.insertionSort (· ≤ ·) ([5, 3] : List Node) ∧
    (∀ k : Node,
      k ∈ (square_layout [5, 3] 0 (fun _ => ((0 : ℚ), (0 : ℚ)))).map (fun kv => kv.1) ↔
        k ∈ ([5, 3] : List Node)) ∧
    ∀ i : Nat, i < ([5, 3] : List Node).length →
      ∃ nd : Node, ∃ dx dy : ℚ,
        (List.insertionSort (· ≤ ·) ([5, 3] : List Node))[i]? = some nd ∧
        |dx| ≤ 0 * (1 / (nodes_per_axis ([5, 3] : List Node).length : ℚ)) ∧
        |dy| ≤ 0 * (1 / (nodes_per_axis ([5, 3] : List Node).length : ℚ)) ∧
        (square_layout [5, 3] 0 (fun _ => ((0 : ℚ), (0 : ℚ))))[i]? =
          some (nd,
            (((i % nodes_per_axis ([5, 3] : List Node).length : ℕ) : ℚ) *
                (1 / (nodes_per_axis ([5, 3] : List Node).length : ℚ)) + dx,
             ((i / nodes_per_axis ([5, 3] : List Node).length : ℕ) : ℚ) *
                (1 / (nodes_per_axis ([5, 3] : List Node).length : ℚ)) + dy)) :=
  by
  exact square_layout_spec [5, 3] 0 (fun _ => ((0 : ℚ), (0 : ℚ)))
    (by decide) (by decide) (fun i => ⟨by simp, by simp⟩)

/-! ### Lemmas about `find_edge_info` normalization -/

theorem listMax_mem (l : List ℚ) (h : l ≠ []) : listMax l ∈ l := by
  induction l with
  | nil => exact absurd rfl h
  | cons x xs ih =>
    cases xs with
    | nil => simp [listMax]
    | cons y ys =>
      rw [listMax]
      rcases max_choice x (listMax (y :: ys)) with hm | hm
      · rw [hm]
        exact List.mem_cons_self _ _
      · rw [hm]
        exact List.mem_cons_of_mem _ (ih (by simp))

theorem le_listMax (l : List ℚ) (x : ℚ) (hx : x ∈ l) : x ≤ listMax l := by
  induction l with
  | nil => exact absurd hx (List.not_mem_nil x)
  | cons a xs ih =>
    cases xs with
    | nil =>
      rw [List.mem_singleton] at hx
      rw [hx, listMax]
    | cons y ys =>
      rw [listMax]
      rcases List.mem_cons.mp hx with rfl | hmem
      · exact le_max_left _ _
      · exact le_trans (ih hmem) (le_max_right _ _)

theorem find_edge_info_line_data_eq (log : List Row) (pos : Node → Pos)
    (a : Node) (et : EdgeType) :
    find_edge_info_line_data log pos a et =
      (composite_Edges log et a).map (fun bw =>
        ((pos a).1, (pos bw.1).1, (pos a).2, (pos bw.1).2,
          (bw.2 : ℚ) /
            listMax ((composite_Edges log et a).map (fun cw => (cw.2 : ℚ))))) := by
  cases hE : composite_Edges log et a with
  | nil => simp [find_edge_info_line_data, hE]
  | cons e es =>
    simp only [find_edge_info_line_data, hE, List.map_cons, List.map_map]
    rfl

/-- C6: for a node and edge type with at least one edge, every entry of the
returned `line_data` carries the original weight divided by the maximum
weight over that node's edges of the type; with all-positive weights every
normalized weight lies in `(0, 1]` and the maximum normalized weight is
exactly 1; with no edges, `line_data` is the empty list. -/
theorem find_edge_info_normalization (log : List Row) (pos : Node → Pos)
    (a : Node) (et : EdgeType)
    (hpos : ∀ bw ∈ composite_Edges log et a, 0 < bw.2) :
    (composite_Edges log et a = [] → find_edge_info_line_data log pos a et = []) ∧
    (composite_Edges log et a ≠ [] →
      (∀ i : Nat, i < (composite_Edges log et a).length →
        ∃ bw : Node × Int, (composite_Edges log et a)[i]? = some bw ∧
          (find_edge_info_line_data log pos a et)[i]? =
            some ((pos a).1, (pos bw.1).1, (pos a).2, (pos bw.1).2,
              (bw.2 : ℚ) /
                listMax ((composite_Edges log et a).map (fun cw => (cw.2 : ℚ)))) ∧
          0 < (bw.2 : ℚ) /
              listMax ((composite_Edges log et a).map (fun cw => (cw.2 : ℚ))) ∧
          (bw.2 : ℚ) /
              listMax ((composite_Edges log et a).map (fun cw => (cw.2 : ℚ))) ≤ 1) ∧
      ∃ j : Nat, ∃ ld : ℚ × ℚ × ℚ × ℚ × ℚ,
        (find_edge_info_line_data log pos a et)[j]? = some ld ∧ lineWeight ld = 1) := by
  constructor
  · intro hE
    rw [find_edge_info_line_data_eq, hE]
    rfl
  · intro hne
    have hmapne : (composite_Edges log et a).map (fun cw => ((cw.2 : Int) : ℚ)) ≠ [] := by
      intro hc
      exact hne (List.map_eq_nil_iff.mp hc)
    have hmw_mem : listMax ((composite_Edges log et a).map (fun cw => (cw.2 : ℚ))) ∈
        (composite_Edges log et a).map (fun cw => (cw.2 : ℚ)) :=
      listMax_mem _ hmapne
    have hmw_pos : 0 < listMax ((composite_Edges log et a).map (fun cw => (cw.2 : ℚ))) := by
      rcases List.mem_map.mp hmw_mem with ⟨cw, hcw, heq⟩
      rw [← heq]
      exact_mod_cast hpos cw hcw
    constructor
    · intro i hi
      have hbw : (composite_Edges log et a)[i]? = some (composite_Edges log et a)[i] :=
        List.getElem?_eq_getElem hi
      refine ⟨(composite_Edges log et a)[i], hbw, ?_, ?_, ?_⟩
      · rw [find_edge_info_line_data_eq, List.getElem?_map, hbw]
        rfl
      · refine div_pos ?_ hmw_pos
        exact_mod_cast hpos _ (List.getElem_mem hi)
      · refine (div_le_one hmw_pos).mpr ?_
        refine le_listMax _ _ ?_
        exact List.mem_map_of_mem _ (List.getElem_mem hi)
    · obtain ⟨j, hj, hjeq⟩ := List.getElem_of_mem hmw_mem
      have hjlen : j < (composite_Edges log et a).length := by
        rw [List.length_map] at hj
        exact hj
      refine ⟨j, ((pos a).1, (pos (composite_Edges log et a)[j].1).1,
        (pos a).2, (pos (composite_Edges log et a)[j].1).2,
        ((composite_Edges log et a)[j].2 : ℚ) /
          listMax ((composite_Edges log et a).map (fun cw => (cw.2 : ℚ)))), ?_, ?_⟩
      · rw [find_edge_info_line_data_eq, List.getElem?_map,
          List.getElem?_eq_getElem hjlen]
        rfl
      · have hcast : ((composite_Edges log et a)[j].2 : ℚ) =
            listMax ((composite_Edges log et a).map (fun cw => (cw.2 : ℚ))) := by
          rw [← hjeq, List.getElem_map]
        rw [lineWeight, hcast]
        exact div_self (ne_of_gt hmw_pos)

/-- Witness for `find_edge_info_normalization`: the one-row log
`[(1, 2, 3)]` has only positive weights, so the normalization conclusion
holds for node 1's Send edges. -/
theorem find_edge_info_normalization_witness :
    (composite_Edges ([(1, 2, 3)] : List Row) EdgeType.Send 1 = [] →
      find_edge_info_line_data ([(1, 2, 3)] : List Row)
        (fun _ => ((0 : ℚ), (0 : ℚ))) 1 EdgeType.Send = []) ∧
    (composite_Edges ([(1, 2, 3)] : List Row) EdgeType.Send 1 ≠ [] →
      (∀ i : Nat, i < (composite_Edges ([(1, 2, 3)] : List Row) EdgeType.Send 1).length →
        ∃ bw : Node × Int,
          (composite_Edges ([(1, 2, 3)] : List Row) EdgeType.Send 1)[i]? = some bw ∧
          (find_edge_info_line_data ([(1, 2, 3)] : List Row)
              (fun _ => ((0 : ℚ), (0 : ℚ))) 1 EdgeType.Send)[i]? =
            some (((fun _ : Node => ((0 : ℚ), (0 : ℚ))) 1).1,
              ((fun _ : Node => ((0 : ℚ), (0 : ℚ))) bw.1).1,
              ((fun _ : Node => ((0 : ℚ), (0 : ℚ))) 1).2,
              ((fun _ : Node => ((0 : ℚ), (0 : ℚ))) bw.1).2,
              (bw.2 : ℚ) /
                listMax ((composite_Edges ([(1, 2, 3)] : List Row)
                  EdgeType.Send 1).map (fun cw => (cw.2 : ℚ)))) ∧
          0 < (bw.2 : ℚ) /
              listMax ((composite_Edges ([(1, 2, 3)] : List Row)
                EdgeType.Send 1).map (fun cw => (cw.2 : ℚ))) ∧
          (bw.2 : ℚ) /
              listMax ((composite_Edges ([(1, 2, 3)] : List Row)
                EdgeType.Send 1).map (fun cw => (cw.2 : ℚ))) ≤ 1) ∧
      ∃ j : Nat, ∃ ld : ℚ × ℚ × ℚ × ℚ × ℚ,
        (find_edge_info_line_data ([(1, 2, 3)] : List Row)
            (fun _ => ((0 : ℚ), (0 : ℚ))) 1 EdgeType.Send)[j]? = some ld ∧
        lineWeight ld = 1) :=
  find_edge_info_normalization ([(1, 2, 3)] : List Row)
    (fun _ => ((0 : ℚ), (0 : ℚ))) 1 EdgeType.Send (by decide)

/-! ### The plot-ready projections -/

/-- C7: `find_marker_text` returns one caption and one color per entry of
the node-name tuple; the i-th color is node i's send fail total, receive
fail total, or their sum according to the edge type (0 when the node has no
fails of that kind); and the i-th caption carries the appended pair
annotation against the selected node exactly when the combined
`Send+Receive` edge weight between node i and the selected node is strictly
positive. -/
theorem find_marker_text_spec (log : List Row) (node_a : Node) (et : EdgeType) :
    (find_marker_text log node_a et).1.length = (unique_nodes log).length ∧
    (find_marker_text log node_a et).2.length = (unique_nodes log).length ∧
    (∀ i : Nat, (find_marker_text log node_a et).2[i]? =
      ((unique_nodes log)[i]?).map (fun n =>
        match et with
        | EdgeType.Send => sender_fails_get log n
        | EdgeType.Receive => receiver_fails_get log n
        | EdgeType.SendReceive => sender_fails_get log n + receiver_fails_get log n)) ∧
    ∀ i : Nat, ((find_marker_text log node_a et).1[i]?).map (fun c => c.pairInfo) =
      ((unique_nodes log)[i]?).map (fun n =>
        if 0 < lookupD (composite_SREdges log n) node_a then
          some (node_a, lookupD (composite_SREdges log n) node_a,
            lookupD (composite_SendEdges log n) node_a,
            lookupD (composite_ReceiveEdges log n) node_a)
        else none) := by
  refine ⟨by simp [find_marker_text], by simp [find_marker_text],
    fun i => ?_, fun i => ?_⟩
  · cases h : (unique_nodes log)[i]? with
    | none =>
      cases et <;> simp [find_marker_text, List.getElem?_map, h]
    | some n =>
      cases et <;>
        simp [find_marker_text, List.getElem?_map, h, marker_color, total_fails_get]
  · cases h : (unique_nodes log)[i]? with
    | none => simp [find_marker_text, List.getElem?_map, h]
    | some n => simp [find_marker_text, List.getElem?_map, h, marker_caption]

/-- C8: after `calc_plot_data`, the node-name tuple is the unique node
sequence, the coordinate tuple holds the x list and y list of those nodes'
positions in the same index order, and for every node and each of the three
edge types the per-node entry carries all six data items, each computed by
the corresponding routine. -/
theorem calc_plot_data_spec (log : List Row) (pos : Node → Pos) :
    (calc_plot_data log pos).nodeNames = unique_nodes log ∧
    (∀ i : Nat, ((calc_plot_data log pos).nodeCoordinates.1)[i]? =
      ((unique_nodes log)[i]?).map (fun n => (pos n).1)) ∧
    (∀ i : Nat, ((calc_plot_data log pos).nodeCoordinates.2)[i]? =
      ((unique_nodes log)[i]?).map (fun n => (pos n).2)) ∧
    ∀ n : Node, ∀ et : EdgeType,
      ((calc_plot_data log pos).perNode n et).edge_coordinates =
        find_edge_info_edge_coordinates log pos n et ∧
      ((calc_plot_data log pos).perNode n et).line_data =
        find_edge_info_line_data log pos n et ∧
      ((calc_plot_data log pos).perNode n et).shape_data =
        lines_to_shapes (find_edge_info_line_data log pos n et) (2/5) 3 ∧
      ((calc_plot_data log pos).perNode n et).weights =
        find_edge_info_weights log n et ∧
      ((calc_plot_data log pos).perNode n et).node_text =
        (find_marker_text log n et).1 ∧
      ((calc_plot_data log pos).perNode n et).node_color =
        (find_marker_text log n et).2 := by
  refine ⟨rfl, fun i => ?_, fun i => ?_, fun n et => ⟨rfl, rfl, rfl, rfl, rfl, rfl⟩⟩
  · simp [calc_plot_data, List.getElem?_map]
  · simp [calc_plot_data, List.getElem?_map]

/-- C9: `update_figure` performs no aggregation: it returns the reader state
unchanged, installs in the figure exactly the shape, hover-text and color
values already stored in `plot_data[plot_node][edge_type]`, leaves the
scatter coordinates untouched and refreshes only the two titles. -/
theorem update_figure_spec (fig : Figure) (nlr : ReaderState) (plot_node : Node)
    (et : EdgeType) :
    (update_figure fig nlr plot_node et).2 = nlr ∧
    (update_figure fig nlr plot_node et).1.scatterText =
      (nlr.plot_data.perNode plot_node et).node_text ∧
    (update_figure fig nlr plot_node et).1.scatterColor =
      (nlr.plot_data.perNode plot_node et).node_color ∧
    (update_figure fig nlr plot_node et).1.shapes =
      (nlr.plot_data.perNode plot_node et).shape_data ∧
    (update_figure fig nlr plot_node et).1.scatterX = fig.scatterX ∧
    (update_figure fig nlr plot_node et).1.scatterY = fig.scatterY ∧
    (update_figure fig nlr plot_node et).1.colorbarTitle =
      "Num of Failures<br>" ++ et.label ∧
    (update_figure fig nlr plot_node et).1.layoutTitle =
      "Interactive Graph of Network Failures<br>Selected Node: " ++ toString plot_node :=
  ⟨rfl, rfl, rfl, rfl, rfl, rfl, rfl, rfl⟩

end NetworkLog
